import Mathlib

/-!
Verification of the `mongo-pipebuilder` repository
(`src/mongo_pipebuilder/builder.py`, class `PipelineBuilder`).

The builder's internal state is the list `self._stages` of Python values.
Python values are embedded structurally as `PyVal` (dicts are ordered
key/value lists, as Python dicts are insertion ordered).  Each method of
the class becomes a function from the current stage list (and the method's
arguments, as `PyVal`s) to a pair of an optional raised exception and the
stage list after the call; a faithful translation places each `raise`
exactly where the Python code raises, carrying the state at that point.

Aliasing claims (deep versus shallow copies on `build()` and
`get_stage_at()`) are settled against a second, heap-based model further
below, since the structural model cannot express object identity.
-/

namespace MongoPipebuilder

/-- A Python value, as used by the builder: `None`, booleans, integers,
strings, lists and (insertion-ordered) dicts. -/
inductive PyVal where
  | none
  | bool (b : Bool)
  | int (n : Int)
  | str (s : String)
  | list (xs : List PyVal)
  | dict (kvs : List (String × PyVal))

/-- Python truthiness (`if v:`). -/
def PyVal.truthy : PyVal → Bool
  | .none => false
  | .bool b => b
  | .int n => n != 0
  | .str s => s != ""
  | .list xs => !xs.isEmpty
  | .dict kvs => !kvs.isEmpty

/-- The exceptions the builder raises. -/
inductive PyErr where
  | typeError (msg : String)
  | valueError (msg : String)
  | indexError (msg : String)
  | stopIteration
  deriving DecidableEq, Repr

/-- `isinstance(v, dict)`. -/
def isDict : PyVal → Bool
  | .dict _ => true
  | _ => false

/-- `isinstance(v, str)`. -/
def isStr : PyVal → Bool
  | .str _ => true
  | _ => false

/-- `isinstance(v, str) and v` (a non-empty string). -/
def isNonEmptyStr : PyVal → Bool
  | .str s => s != ""
  | _ => false

/-- `isinstance(v, int)`; Python `bool` is a subclass of `int`. -/
def isInt : PyVal → Bool
  | .int _ => true
  | .bool _ => true
  | _ => false

/-- The integer value of an `int`-instance (`True` counts as 1). -/
def asInt : PyVal → Int
  | .int n => n
  | .bool b => if b then 1 else 0
  | _ => 0

/-- Set `k` to `v` in a Python dict: overwriting keeps the original
position, a new key is appended at the end. -/
def dictSet (kvs : List (String × PyVal)) (k : String) (v : PyVal) :
    List (String × PyVal) :=
  if kvs.any (fun kv => kv.1 == k) then
    kvs.map (fun kv => if kv.1 == k then (k, v) else kv)
  else kvs ++ [(k, v)]

/-- Python `{**a, **b}` / dict-literal unpacking: entries of `b` are set
into `a` in order. -/
def dictMerge (a b : List (String × PyVal)) : List (String × PyVal) :=
  b.foldl (fun acc kv => dictSet acc kv.1 kv.2) a

/-- The builder's internal state: the list `self._stages`. -/
abbrev Stages := List PyVal

/-- Result of a method call: the exception raised (if any) and the stage
list at the moment the call returns or raises. -/
abbrev MethodResult := Option PyErr × Stages

namespace PipelineBuilder

/-- `PipelineBuilder.match` (named `match_` because `match` is a Lean
keyword): `None` and non-dict arguments raise `TypeError` before any
mutation; an empty dict is a silent no-op; otherwise append
`{"$match": conditions}`. -/
def match_ (s : Stages) (conditions : PyVal) : MethodResult :=
  match conditions with
  | .none => (some (.typeError "conditions cannot be None, use empty dict instead"), s)
  | .dict kvs =>
      if kvs.isEmpty then (none, s)
      else (none, s ++ [.dict [("$match", .dict kvs)]])
  | _ => (some (.typeError "conditions must be a dict"), s)

/-- `PipelineBuilder.lookup`: the four string arguments must be non-empty
strings (`ValueError` otherwise); a non-`None` pipeline must be a list of
dicts (`TypeError` otherwise); the `"pipeline"` key is added only when the
pipeline is truthy (a non-empty list). -/
def lookup (s : Stages) (from_collection local_field foreign_field as_field
    pipeline : PyVal) : MethodResult :=
  if !isNonEmptyStr from_collection then
    (some (.valueError "from_collection must be a non-empty string"), s)
  else if !isNonEmptyStr local_field then
    (some (.valueError "local_field must be a non-empty string"), s)
  else if !isNonEmptyStr foreign_field then
    (some (.valueError "foreign_field must be a non-empty string"), s)
  else if !isNonEmptyStr as_field then
    (some (.valueError "as_field must be a non-empty string"), s)
  else
    let base : List (String × PyVal) :=
      [("from", from_collection), ("localField", local_field),
       ("foreignField", foreign_field), ("as", as_field)]
    match pipeline with
    | .none => (none, s ++ [.dict [("$lookup", .dict base)]])
    | .list xs =>
        if !xs.all isDict then
          (some (.typeError "All pipeline stages must be dictionaries"), s)
        else if xs.isEmpty then (none, s ++ [.dict [("$lookup", .dict base)]])
        else (none, s ++ [.dict [("$lookup", .dict (base ++ [("pipeline", .list xs)]))]])
    | _ => (some (.typeError "pipeline must be a list"), s)

/-- `PipelineBuilder.add_fields`: same shape as `match`, marker
`$addFields`. -/
def add_fields (s : Stages) (fields : PyVal) : MethodResult :=
  match fields with
  | .none => (some (.typeError "fields cannot be None, use empty dict instead"), s)
  | .dict kvs =>
      if kvs.isEmpty then (none, s)
      else (none, s ++ [.dict [("$addFields", .dict kvs)]])
  | _ => (some (.typeError "fields must be a dict"), s)

/-- `PipelineBuilder.project`: same shape as `match`, marker `$project`. -/
def project (s : Stages) (fields : PyVal) : MethodResult :=
  match fields with
  | .none => (some (.typeError "fields cannot be None, use empty dict instead"), s)
  | .dict kvs =>
      if kvs.isEmpty then (none, s)
      else (none, s ++ [.dict [("$project", .dict kvs)]])
  | _ => (some (.typeError "fields must be a dict"), s)

/-- The descriptive, corrective message of the doubly-wrapped-id guard in
`group` (the source interpolates the wrapped expression into a longer
text; only the error kind and trigger condition are contractual). -/
def doubleWrappedIdMsg : String :=
  "Invalid group_by: dict wrapper around the reserved id key; pass the expression that becomes the group id"

/-- `PipelineBuilder.group`: `accumulators` must be a dict (`TypeError`);
a `group_by` dict whose key set is exactly the reserved `"_id"` key raises
the descriptive corrective `ValueError`; a dict/str `group_by` that is
empty together with empty accumulators raises `ValueError`; otherwise
appends the merged group stage. -/
def group (s : Stages) (group_by accumulators : PyVal) : MethodResult :=
  match accumulators with
  | .dict acc =>
      match group_by with
      | .dict g =>
          if !g.isEmpty && g.all (fun kv => kv.1 == "_id") then
            (some (.valueError doubleWrappedIdMsg), s)
          else if g.isEmpty && acc.isEmpty then
            (some (.valueError "group_by and accumulators cannot both be empty"), s)
          else (none, s ++ [.dict [("$group", .dict (dictMerge [("_id", .dict g)] acc))]])
      | .str gs =>
          if gs == "" && acc.isEmpty then
            (some (.valueError "group_by and accumulators cannot both be empty"), s)
          else (none, s ++ [.dict [("$group", .dict (dictMerge [("_id", .str gs)] acc))]])
      | other => (none, s ++ [.dict [("$group", .dict (dictMerge [("_id", other)] acc))]])
  | _ => (some (.typeError "accumulators must be a dict"), s)

/-- `PipelineBuilder.unwind`: path must be a string (`TypeError`) and
non-empty (`ValueError`); the two modifier keys are added only when the
corresponding argument is truthy. -/
def unwind (s : Stages) (path preserve_null_and_empty_arrays
    include_array_index : PyVal) : MethodResult :=
  match path with
  | .str p =>
      if p == "" then (some (.valueError "path cannot be empty"), s)
      else
        let st0 : List (String × PyVal) := [("path", .str p)]
        let st1 := if preserve_null_and_empty_arrays.truthy then
            st0 ++ [("preserveNullAndEmptyArrays", .bool true)] else st0
        let st2 := if include_array_index.truthy then
            st1 ++ [("includeArrayIndex", include_array_index)] else st1
        (none, s ++ [.dict [("$unwind", .dict st2)]])
  | _ => (some (.typeError "path must be a string"), s)

/-- `PipelineBuilder.sort`: same shape as `match`, marker `$sort`. -/
def sort (s : Stages) (fields : PyVal) : MethodResult :=
  match fields with
  | .none => (some (.typeError "fields cannot be None, use empty dict instead"), s)
  | .dict kvs =>
      if kvs.isEmpty then (none, s)
      else (none, s ++ [.dict [("$sort", .dict kvs)]])
  | _ => (some (.typeError "fields must be a dict"), s)

/-- `PipelineBuilder.limit`: `TypeError` for non-int, `ValueError` for
negative, silent no-op for zero, append otherwise. -/
def limit (s : Stages) (lim : PyVal) : MethodResult :=
  if !isInt lim then (some (.typeError "limit must be an integer"), s)
  else if asInt lim < 0 then (some (.valueError "limit cannot be negative"), s)
  else if asInt lim > 0 then (none, s ++ [.dict [("$limit", lim)]])
  else (none, s)

/-- `PipelineBuilder.skip`: same shape as `limit`, marker `$skip`. -/
def skip (s : Stages) (sk : PyVal) : MethodResult :=
  if !isInt sk then (some (.typeError "skip must be an integer"), s)
  else if asInt sk < 0 then (some (.valueError "skip cannot be negative"), s)
  else if asInt sk > 0 then (none, s ++ [.dict [("$skip", sk)]])
  else (none, s)

/-- `PipelineBuilder.unset`: a non-empty string is appended as a scalar;
a list must be non-empty, all strings, all non-empty, and is appended as a
list when it has more than one element and collapsed to the scalar first
element otherwise. -/
def unset (s : Stages) (fields : PyVal) : MethodResult :=
  match fields with
  | .none => (some (.typeError "fields cannot be None"), s)
  | .str f =>
      if f == "" then (some (.valueError "fields cannot be an empty string"), s)
      else (none, s ++ [.dict [("$unset", .str f)]])
  | .list fs =>
      if fs.isEmpty then (some (.valueError "fields cannot be an empty list"), s)
      else if !fs.all isStr then
        (some (.typeError "all items in fields list must be strings"), s)
      else if !fs.all PyVal.truthy then
        (some (.valueError "fields list cannot contain empty strings"), s)
      else (none, s ++ [.dict [("$unset", if fs.length > 1 then .list fs else fs.headD .none)]])
  | _ => (some (.typeError "fields must be a string or list of strings"), s)

/-- `PipelineBuilder.replace_root`: must be a dict (`TypeError`),
non-empty and containing the `"newRoot"` key (`ValueError`). -/
def replace_root (s : Stages) (new_root : PyVal) : MethodResult :=
  match new_root with
  | .none => (some (.typeError "new_root cannot be None, use empty dict instead"), s)
  | .dict kvs =>
      if kvs.isEmpty then (some (.valueError "new_root cannot be empty"), s)
      else if !kvs.any (fun kv => kv.1 == "newRoot") then
        (some (.valueError "new_root must contain the newRoot key"), s)
      else (none, s ++ [.dict [("$replaceRoot", .dict kvs)]])
  | _ => (some (.typeError "new_root must be a dict"), s)

/-- `PipelineBuilder.replace_with`: only `None` is rejected (with a
`ValueError`); anything else is appended verbatim. -/
def replace_with (s : Stages) (replacement : PyVal) : MethodResult :=
  match replacement with
  | .none => (some (.valueError "replacement cannot be None"), s)
  | r => (none, s ++ [.dict [("$replaceWith", r)]])

/-- The per-entry loop of `facet`: every value must be a list of dicts. -/
def facetCheckVals : List (String × PyVal) → Option PyErr
  | [] => none
  | (_, .list xs) :: rest =>
      if !xs.all isDict then some (.typeError "all stages in a facet must be dictionaries")
      else facetCheckVals rest
  | (_, _) :: _ => some (.typeError "a facet value must be a list")

/-- `PipelineBuilder.facet`: must be a non-empty dict whose values are
lists of dicts. -/
def facet (s : Stages) (facets : PyVal) : MethodResult :=
  match facets with
  | .none => (some (.typeError "facets cannot be None, use empty dict instead"), s)
  | .dict kvs =>
      if kvs.isEmpty then (some (.valueError "facets cannot be empty"), s)
      else
        match facetCheckVals kvs with
        | some e => (some e, s)
        | none => (none, s ++ [.dict [("$facet", .dict kvs)]])
  | _ => (some (.typeError "facets must be a dict"), s)

/-- `PipelineBuilder.count`: the field name must be a non-`None`,
non-empty string. -/
def count (s : Stages) (field_name : PyVal) : MethodResult :=
  match field_name with
  | .none => (some (.typeError "field_name cannot be None"), s)
  | .str f =>
      if f == "" then (some (.valueError "field_name cannot be empty"), s)
      else (none, s ++ [.dict [("$count", .str f)]])
  | _ => (some (.typeError "field_name must be a string"), s)

/-- `PipelineBuilder.set_field`: like `add_fields` but with marker `$set`
and an explicit early return (silent skip) on the empty dict. -/
def set_field (s : Stages) (fields : PyVal) : MethodResult :=
  match fields with
  | .none => (some (.typeError "fields cannot be None, use empty dict instead"), s)
  | .dict kvs =>
      if kvs.isEmpty then (none, s)
      else (none, s ++ [.dict [("$set", .dict kvs)]])
  | _ => (some (.typeError "fields must be a dict"), s)

/-- `PipelineBuilder.add_stage`: no validation beyond truthiness; a truthy
argument of any shape is appended verbatim. -/
def add_stage (s : Stages) (stage : PyVal) : MethodResult :=
  if stage.truthy then (none, s ++ [stage]) else (none, s)

/-- `PipelineBuilder.clear`: resets the sequence to empty. -/
def clear (_s : Stages) : MethodResult :=
  (none, [])

/-- `PipelineBuilder.prepend`: `None` and non-dicts raise `TypeError`; an
empty dict is a silent no-op; otherwise insert at position 0. -/
def prepend (s : Stages) (stage : PyVal) : MethodResult :=
  match stage with
  | .none => (some (.typeError "stage cannot be None"), s)
  | .dict kvs =>
      if kvs.isEmpty then (none, s)
      else (none, .dict kvs :: s)
  | _ => (some (.typeError "stage must be a dict"), s)

/-- `PipelineBuilder.insert_at`: the stage is validated first (`TypeError`
for `None`/non-dict, silent no-op for the empty dict, even when the
position is out of range); only then is the position checked against
`[0, len]` (`IndexError` outside); finally the stage is inserted. -/
def insert_at (s : Stages) (position : Int) (stage : PyVal) : MethodResult :=
  match stage with
  | .none => (some (.typeError "stage cannot be None"), s)
  | .dict kvs =>
      if kvs.isEmpty then (none, s)
      else if position < 0 || position > s.length then
        (some (.indexError "Position out of range"), s)
      else (none, s.insertIdx position.toNat (.dict kvs))
  | _ => (some (.typeError "stage must be a dict"), s)

/-- `next(iter(v))`: the first item obtained by iterating a Python value
— the first key of a dict, the first character of a string, the first
element of a list; `StopIteration` when the iterable is empty and
`TypeError` when the value is not iterable at all (`None`, bool, int). -/
def firstIter : PyVal → Except PyErr PyVal
  | .dict ((k, _) :: _) => .ok (.str k)
  | .dict [] => .error .stopIteration
  | .str s => if s.isEmpty then .error .stopIteration else .ok (.str (s.take 1))
  | .list (x :: _) => .ok x
  | .list [] => .error .stopIteration
  | _ => .error (.typeError "object is not iterable")

/-- `PipelineBuilder.get_stage_types`:
`[next(iter(stage)) for stage in self._stages]`, in order, propagating
the first iteration error; the items are arbitrary Python values (only
single-key-mapping stages are guaranteed to contribute their key). -/
def get_stage_types : Stages → Except PyErr (List PyVal)
  | [] => .ok []
  | st :: rest =>
      match firstIter st with
      | .ok k => (get_stage_types rest).map (k :: ·)
      | .error e => .error e

/-- Python `x == item` for a string `x` against an arbitrary value
(equality across types is `False`), as used by `in` and `list.index`. -/
def pyStrEq (x : String) : PyVal → Bool
  | .str s => x == s
  | _ => false

/-- Python `list.index` for a string needle (index of the first element
equal to it; callers below guard membership first, as the source does). -/
def pyIndex (l : List PyVal) (x : String) : Nat :=
  match l with
  | [] => 0
  | y :: rest => if pyStrEq x y then 0 else pyIndex rest x + 1

/-- `PipelineBuilder.validate`: empty pipeline raises `ValueError`; both
`$out` and `$merge` present raises `ValueError`; for each of `$out`,
`$merge` in that order, if present, its first occurrence must be the last
position (`ValueError` otherwise); returns `True` otherwise. -/
def validate (s : Stages) : Except PyErr Bool :=
  if s.isEmpty then .error (.valueError "Pipeline cannot be empty")
  else
    match get_stage_types s with
    | .error e => .error e
    | .ok ts =>
        let has_out := ts.any (pyStrEq "$out")
        let has_merge := ts.any (pyStrEq "$merge")
        if has_out && has_merge then
          .error (.valueError "Pipeline cannot contain both $out and $merge stages. Only one output stage is allowed.")
        else if has_out && pyIndex ts "$out" != ts.length - 1 then
          .error (.valueError "$out stage must be the last stage in the pipeline.")
        else if has_merge && pyIndex ts "$merge" != ts.length - 1 then
          .error (.valueError "$merge stage must be the last stage in the pipeline.")
        else .ok true

/-- The reachable builder states: the empty pipeline of `__init__`, closed
under every public mutating operation (each applied with arbitrary
arguments; the state after a call is the second component of the result,
whether or not the call raised). -/
inductive Reachable : Stages → Prop where
  | init : Reachable []
  | step_match (s c) : Reachable s → Reachable (match_ s c).2
  | step_lookup (s a b c d p) : Reachable s → Reachable (lookup s a b c d p).2
  | step_add_fields (s f) : Reachable s → Reachable (add_fields s f).2
  | step_project (s f) : Reachable s → Reachable (project s f).2
  | step_group (s g acc) : Reachable s → Reachable (group s g acc).2
  | step_unwind (s p pr ix) : Reachable s → Reachable (unwind s p pr ix).2
  | step_sort (s f) : Reachable s → Reachable (sort s f).2
  | step_limit (s n) : Reachable s → Reachable (limit s n).2
  | step_skip (s n) : Reachable s → Reachable (skip s n).2
  | step_unset (s f) : Reachable s → Reachable (unset s f).2
  | step_replace_root (s r) : Reachable s → Reachable (replace_root s r).2
  | step_replace_with (s r) : Reachable s → Reachable (replace_with s r).2
  | step_facet (s f) : Reachable s → Reachable (facet s f).2
  | step_count (s f) : Reachable s → Reachable (count s f).2
  | step_set_field (s f) : Reachable s → Reachable (set_field s f).2
  | step_add_stage (s st) : Reachable s → Reachable (add_stage s st).2
  | step_clear (s) : Reachable s → Reachable (clear s).2
  | step_prepend (s st) : Reachable s → Reachable (prepend s st).2
  | step_insert_at (s p st) : Reachable s → Reachable (insert_at s p st).2

end PipelineBuilder

/-- The number of top-level keys of a stage (0 for non-dicts). -/
def topKeyCount : PyVal → Nat
  | .dict kvs => kvs.length
  | _ => 0

/-- Spec-side condition of C2: every occurrence of a terminal marker is at
the last position of the stage-type list. -/
def eachTerminalLast (ts : List PyVal) : Prop :=
  ∀ i x, ts[i]? = some x →
    (x = PyVal.str "$out" ∨ x = PyVal.str "$merge") → i = ts.length - 1

/-- The declared argument domain of `unset`, `Union[str, List[str]]` plus
`None` and (possibly heterogeneous or empty-string) list elements. -/
def unsetDomain : PyVal → Bool
  | .none => true
  | .str _ => true
  | .list _ => true
  | _ => false

/-- An empty-string value. -/
def isEmptyStr : PyVal → Bool
  | .str x => x == ""
  | _ => false

/-- Spec-side error condition of C8: `fields` is null, an empty string, an
empty list, contains a non-string element, or contains an empty-string
element. -/
def unsetErrCond : PyVal → Bool
  | .none => true
  | .str f => f == ""
  | .list fs => fs.isEmpty || !fs.all isStr || fs.any isEmptyStr
  | _ => false

/-!
## Heap model (for the aliasing claim C4)

The structural model above cannot express object identity, so the
deep-versus-shallow-copy behaviour of `build()` and `get_stage_at()` is
settled against an explicit heap: composite Python objects (dicts, lists)
live at numeric addresses, values are atoms or references, and mutating a
returned object is updating the heap at an address that is part of the
returned structure.  `self._stages` holds references to the stage dicts;
`build()` performs `self._stages.copy()`, i.e. allocates a fresh list
object holding the same element references; `get_stage_at` performs
`copy.deepcopy` of one element.  What a caller observes of a structure is
its deep content, `snapshotVals` (fuel-bounded recursion through the
heap).
-/

/-- A heap value: an atom or a reference to a heap object. -/
inductive HVal where
  | int (n : Int)
  | str (s : String)
  | ref (a : Nat)
  deriving DecidableEq, Repr

/-- A heap object: a dict or a list. -/
inductive HObj where
  | dict (kvs : List (String × HVal))
  | list (xs : List HVal)
  deriving DecidableEq, Repr

/-- A heap: an association of addresses to objects. -/
abbrev Heap := List (Nat × HObj)

/-- The object at address `a`, if allocated. -/
def Heap.lookupAddr (h : Heap) (a : Nat) : Option HObj :=
  match h.find? (fun p => p.1 == a) with
  | some p => some p.2
  | Option.none => Option.none

/-- In-place mutation of the object at address `a` (a no-op on addresses
that are not allocated). -/
def Heap.update (h : Heap) (a : Nat) (o : HObj) : Heap :=
  h.map (fun p => if p.1 == a then (a, o) else p)

/-- The deep content of a list of heap values: what a caller observes when
reading a returned structure (`none` when the fuel runs out or a reference
dangles). -/
def snapshotVals : Nat → Heap → List HVal → Option (List PyVal)
  | _, _, [] => some []
  | 0, _, _ :: _ => Option.none
  | fuel + 1, h, .int n :: rest => (snapshotVals fuel h rest).map (PyVal.int n :: ·)
  | fuel + 1, h, .str s :: rest => (snapshotVals fuel h rest).map (PyVal.str s :: ·)
  | fuel + 1, h, .ref a :: rest =>
      match Heap.lookupAddr h a with
      | some (HObj.dict kvs) =>
          match snapshotVals fuel h (kvs.map Prod.snd) with
          | some vs =>
              match snapshotVals fuel h rest with
              | some rs => some (PyVal.dict ((kvs.map Prod.fst).zip vs) :: rs)
              | Option.none => Option.none
          | Option.none => Option.none
      | some (HObj.list xs) =>
          match snapshotVals fuel h xs with
          | some vs =>
              match snapshotVals fuel h rest with
              | some rs => some (PyVal.list vs :: rs)
              | Option.none => Option.none
          | Option.none => Option.none
      | Option.none => Option.none

/-- The addresses that are part of (reachable from) the given values:
mutating any of them is mutating "a part of" the structure. -/
def reachAddrs : Nat → Heap → List HVal → List Nat
  | _, _, [] => []
  | 0, _, _ :: _ => []
  | fuel + 1, h, .int _ :: rest => reachAddrs fuel h rest
  | fuel + 1, h, .str _ :: rest => reachAddrs fuel h rest
  | fuel + 1, h, .ref a :: rest =>
      a :: (match Heap.lookupAddr h a with
            | some (HObj.dict kvs) => reachAddrs fuel h (kvs.map Prod.snd)
            | some (HObj.list xs) => reachAddrs fuel h xs
            | Option.none => []) ++ reachAddrs fuel h rest

/-- All references inside a value lie below `fr`. -/
def valBelow (v : HVal) (fr : Nat) : Bool :=
  match v with
  | .ref a => a < fr
  | _ => true

/-- All references inside an object lie below `fr`. -/
def objBelow (o : HObj) (fr : Nat) : Bool :=
  match o with
  | .dict kvs => kvs.all (fun kv => valBelow kv.2 fr)
  | .list xs => xs.all (fun v => valBelow v fr)

/-- Every allocated address and every stored reference lies below `fr`
(so `fr` and everything above it is fresh). -/
def HeapClosed (h : Heap) (fr : Nat) : Bool :=
  h.all (fun p => decide (p.1 < fr) && objBelow p.2 fr)

/-- All references inside a value lie at or above `fr`. -/
def valAtLeast (v : HVal) (fr : Nat) : Bool :=
  match v with
  | .ref a => fr ≤ a
  | _ => true

/-- All references inside an object lie at or above `fr`. -/
def objAtLeast (o : HObj) (fr : Nat) : Bool :=
  match o with
  | .dict kvs => kvs.all (fun kv => valAtLeast kv.2 fr)
  | .list xs => xs.all (fun v => valAtLeast v fr)

/-- `copy.deepcopy`, elementwise on a worklist: atoms are returned as
they are; a reference has its children copied first (threading heap and
next-fresh-address), then a fresh object is allocated for it.  Fuel
decreases at every step; `none` means the fuel ran out or a reference
dangled. -/
def deepcopyVals : Nat → Heap → Nat → List HVal → Option (Heap × Nat × List HVal)
  | _, h, fr, [] => some (h, fr, [])
  | 0, _, _, _ :: _ => Option.none
  | fuel + 1, h, fr, .int n :: rest =>
      (deepcopyVals fuel h fr rest).map (fun r => (r.1, r.2.1, .int n :: r.2.2))
  | fuel + 1, h, fr, .str s :: rest =>
      (deepcopyVals fuel h fr rest).map (fun r => (r.1, r.2.1, .str s :: r.2.2))
  | fuel + 1, h, fr, .ref a :: rest =>
      match Heap.lookupAddr h a with
      | some (HObj.dict kvs) =>
          match deepcopyVals fuel h fr (kvs.map Prod.snd) with
          | some (h1, f1, vs1) =>
              match deepcopyVals fuel (h1 ++ [(f1, HObj.dict ((kvs.map Prod.fst).zip vs1))]) (f1 + 1) rest with
              | some (h2, f2, rest1) => some (h2, f2, .ref f1 :: rest1)
              | Option.none => Option.none
          | Option.none => Option.none
      | some (HObj.list xs) =>
          match deepcopyVals fuel h fr xs with
          | some (h1, f1, xs1) =>
              match deepcopyVals fuel (h1 ++ [(f1, HObj.list xs1)]) (f1 + 1) rest with
              | some (h2, f2, rest1) => some (h2, f2, .ref f1 :: rest1)
              | Option.none => Option.none
          | Option.none => Option.none
      | Option.none => Option.none

/-- `copy.deepcopy` of a single value. -/
def deepcopy (fuel : Nat) (h : Heap) (fr : Nat) (v : HVal) :
    Option (Heap × Nat × HVal) :=
  match deepcopyVals fuel h fr [v] with
  | some (h1, f1, [v1]) => some (h1, f1, v1)
  | _ => Option.none

namespace HeapModel

/-- `PipelineBuilder.build` in the heap model: `self._stages.copy()`
allocates one fresh list object holding the same element references (a
shallow copy) and returns a reference to it. -/
def build (h : Heap) (fresh : Nat) (stages : List HVal) : Heap × Nat × HVal :=
  (h ++ [(fresh, HObj.list stages)], fresh + 1, HVal.ref fresh)

/-- `PipelineBuilder.get_stage_at` in the heap model: a deep copy of the
stage at `index` (the bounds check is settled in the structural model;
indexing here is by `getElem?`). -/
def get_stage_at (fuel : Nat) (h : Heap) (fresh : Nat) (stages : List HVal)
    (index : Nat) : Option (Heap × Nat × HVal) :=
  match stages[index]? with
  | some v => deepcopy fuel h fresh v
  | Option.none => Option.none

end HeapModel

/-- Concrete C4 scenario: one stage `{"$match": {"a": 1}}`, the inner dict
at address 1, the stage dict at address 0. -/
def c4heap0 : Heap := [(0, HObj.dict [("$match", HVal.ref 1)]), (1, HObj.dict [("a", HVal.int 1)])]

/-- The internal `self._stages` of the concrete C4 scenario. -/
def c4stages : List HVal := [HVal.ref 0]

/-- The concrete C4 scenario after `build()` (fresh addresses start at 2):
the heap with the shallowly-copied list object, and the returned
reference. -/
def c4built : Heap × Nat × HVal := HeapModel.build c4heap0 2 c4stages

/-- A probe extracting the nested integer of the C4 scenario's snapshot
(used to compare snapshots without a decidable equality on `PyVal`). -/
def probeInt : Option (List PyVal) → Int
  | some [.dict [(_, .dict [(_, .int n)])]] => n
  | _ => 0

/-!
## Theorems
-/

open PipelineBuilder

/-- Inserting at position `n ≤ length` places the element between the
first `n` elements and the rest. -/
theorem insertIdx_eq_take_cons_drop {α : Type} (x : α) :
    ∀ (n : Nat) (l : List α), n ≤ l.length →
      l.insertIdx n x = l.take n ++ x :: l.drop n
  | 0, _, _ => rfl
  | n + 1, [], h => absurd h (by simp)
  | n + 1, a :: l, h => by
    simpa using insertIdx_eq_take_cons_drop x n l (Nat.le_of_succ_le_succ h)

/-- **C7**: calling `match`, `add_fields`, `project` or `sort` with an
empty mapping, `limit` or `skip` with 0, or `set_field` with an empty
mapping, raises nothing and leaves the stage sequence exactly unchanged
(the builder itself is returned for chaining, which the state-passing
model renders as returning the unchanged state). -/
theorem c7_empty_payloads_are_noops (s : Stages) :
    match_ s (.dict []) = (none, s) ∧
    add_fields s (.dict []) = (none, s) ∧
    project s (.dict []) = (none, s) ∧
    sort s (.dict []) = (none, s) ∧
    limit s (.int 0) = (none, s) ∧
    skip s (.int 0) = (none, s) ∧
    set_field s (.dict []) = (none, s) :=
  ⟨rfl, rfl, rfl, rfl, rfl, rfl, rfl⟩

/-- **C5**: for every `group_by` that is a mapping whose key set is
exactly the reserved `"_id"` key and every accumulators mapping, `group`
raises the descriptive corrective `ValueError` (not a generic
`TypeError`) and appends nothing. -/
theorem c5_double_wrapped_group_id_value_error (s : Stages) (inner : PyVal)
    (acc : List (String × PyVal)) :
    group s (.dict [("_id", inner)]) (.dict acc) =
      (some (.valueError doubleWrappedIdMsg), s) := rfl

/-- **C9**: for every builder state and every mapping stage,
`insert_at(len(s), stage)` returns exactly what `add_stage(stage)`
returns, and `insert_at(0, stage)` returns exactly what `prepend(stage)`
returns (same raised error — none — and same resulting state). -/
theorem c9_insert_at_equals_append_and_prepend (s : Stages)
    (kvs : List (String × PyVal)) :
    insert_at s (s.length : Int) (.dict kvs) = add_stage s (.dict kvs) ∧
    insert_at s 0 (.dict kvs) = prepend s (.dict kvs) := by
  constructor
  · unfold insert_at add_stage
    by_cases hk : kvs.isEmpty
    · simp [hk, PyVal.truthy]
    · simp [hk, PyVal.truthy, List.insertIdx_length_self]
  · unfold insert_at prepend
    by_cases hk : kvs.isEmpty
    · simp [hk]
    · simp [hk]

/-- **C10**: with four non-empty strings and an explicitly empty nested
pipeline, `lookup` succeeds and appends a `$lookup` payload with no
`"pipeline"` key at all, exactly as if no pipeline had been supplied. -/
theorem c10_lookup_empty_pipeline_omits_key (s : Stages) (f l fo a : String)
    (hf : f ≠ "") (hl : l ≠ "") (hfo : fo ≠ "") (ha : a ≠ "") :
    lookup s (.str f) (.str l) (.str fo) (.str a) (.list []) =
      (none, s ++ [.dict [("$lookup", .dict
        [("from", .str f), ("localField", .str l),
         ("foreignField", .str fo), ("as", .str a)])]]) ∧
    lookup s (.str f) (.str l) (.str fo) (.str a) (.list []) =
      lookup s (.str f) (.str l) (.str fo) (.str a) .none := by
  constructor
  · simp [lookup, isNonEmptyStr, hf, hl, hfo, ha]
  · simp [lookup, isNonEmptyStr, hf, hl, hfo, ha]

/-- Witness for C10 at the documentation's example arguments. -/
theorem c10_lookup_empty_pipeline_witness :
    lookup [] (.str "users") (.str "userId") (.str "_id") (.str "user") (.list []) =
      (none, [.dict [("$lookup", .dict
        [("from", .str "users"), ("localField", .str "userId"),
         ("foreignField", .str "_id"), ("as", .str "user")])]]) :=
  (c10_lookup_empty_pipeline_omits_key [] "users" "userId" "_id" "user"
    (by decide) (by decide) (by decide) (by decide)).1

/-- **C3**: every stage-constructor operation validates before it
mutates: whenever a call raises, the stage sequence at the moment of the
raise is exactly the sequence before the call. -/
theorem c3_no_partial_mutation_on_failure (s : Stages) :
    (∀ c e, (match_ s c).1 = some e → (match_ s c).2 = s) ∧
    (∀ a b c d p e, (lookup s a b c d p).1 = some e → (lookup s a b c d p).2 = s) ∧
    (∀ f e, (add_fields s f).1 = some e → (add_fields s f).2 = s) ∧
    (∀ f e, (project s f).1 = some e → (project s f).2 = s) ∧
    (∀ g acc e, (group s g acc).1 = some e → (group s g acc).2 = s) ∧
    (∀ p pr ix e, (unwind s p pr ix).1 = some e → (unwind s p pr ix).2 = s) ∧
    (∀ f e, (sort s f).1 = some e → (sort s f).2 = s) ∧
    (∀ n e, (limit s n).1 = some e → (limit s n).2 = s) ∧
    (∀ n e, (skip s n).1 = some e → (skip s n).2 = s) ∧
    (∀ f e, (unset s f).1 = some e → (unset s f).2 = s) ∧
    (∀ r e, (replace_root s r).1 = some e → (replace_root s r).2 = s) ∧
    (∀ r e, (replace_with s r).1 = some e → (replace_with s r).2 = s) ∧
    (∀ f e, (facet s f).1 = some e → (facet s f).2 = s) ∧
    (∀ f e, (count s f).1 = some e → (count s f).2 = s) ∧
    (∀ f e, (set_field s f).1 = some e → (set_field s f).2 = s) := by
  refine ⟨?_, ?_, ?_, ?_, ?_, ?_, ?_, ?_, ?_, ?_, ?_, ?_, ?_, ?_, ?_⟩
  · intro c e
    unfold match_
    repeat' split
    all_goals (intro h; first | rfl | exact nomatch h)
  · intro a b c d p e
    unfold lookup
    repeat' split
    all_goals (intro h; first | rfl | exact nomatch h)
  · intro f e
    unfold add_fields
    repeat' split
    all_goals (intro h; first | rfl | exact nomatch h)
  · intro f e
    unfold project
    repeat' split
    all_goals (intro h; first | rfl | exact nomatch h)
  · intro g acc e
    unfold group
    repeat' split
    all_goals (intro h; first | rfl | exact nomatch h)
  · intro p pr ix e
    unfold unwind
    repeat' split
    all_goals (intro h; first | rfl | exact nomatch h)
  · intro f e
    unfold sort
    repeat' split
    all_goals (intro h; first | rfl | exact nomatch h)
  · intro n e
    unfold limit
    repeat' split
    all_goals (intro h; first | rfl | exact nomatch h)
  · intro n e
    unfold skip
    repeat' split
    all_goals (intro h; first | rfl | exact nomatch h)
  · intro f e
    unfold unset
    repeat' split
    all_goals (intro h; first | rfl | exact nomatch h)
  · intro r e
    unfold replace_root
    repeat' split
    all_goals (intro h; first | rfl | exact nomatch h)
  · intro r e
    unfold replace_with
    repeat' split
    all_goals (intro h; first | rfl | exact nomatch h)
  · intro f e
    unfold facet
    repeat' split
    all_goals (intro h; first | rfl | exact nomatch h)
  · intro f e
    unfold count
    repeat' split
    all_goals (intro h; first | rfl | exact nomatch h)
  · intro f e
    unfold set_field
    repeat' split
    all_goals (intro h; first | rfl | exact nomatch h)

/-- Witness for C3: `match` called with `None` on a one-stage builder
raises and leaves the stage list untouched. -/
theorem c3_no_partial_mutation_witness :
    (match_ [PyVal.dict [("$limit", .int 1)]] PyVal.none).2 =
      [PyVal.dict [("$limit", .int 1)]] :=
  (c3_no_partial_mutation_on_failure [PyVal.dict [("$limit", .int 1)]]).1
    PyVal.none (.typeError "conditions cannot be None, use empty dict instead") rfl

/-- **C6 counterexample**: the claim asserts `insert_at` raises a range
error for every stage argument when the position is out of range; but
with an empty-mapping stage and position `-1` the call raises nothing and
no-ops, because the stage emptiness check precedes the position check. -/
theorem c6_insert_at_out_of_range_cex :
    insert_at [] (-1) (PyVal.dict []) = (none, []) ∧
    ¬ ∃ m, (insert_at [] (-1) (PyVal.dict [])).1 = some (.indexError m) := by
  refine ⟨rfl, ?_⟩
  rintro ⟨m, hm⟩
  exact nomatch hm

/-- **C6 amended**: for every *non-empty* mapping stage, `insert_at`
raises an `IndexError` and leaves the sequence unchanged when the
position is outside `[0, len]`, and inserts the stage at the position
when inside (position = len appends); an empty mapping stage is a silent
no-op at every position, in range or not. -/
theorem c6_amended_insert_at_spec (s : Stages) (position : Int)
    (kvs : List (String × PyVal)) :
    (kvs ≠ [] → (position < 0 ∨ (s.length : Int) < position) →
      insert_at s position (.dict kvs) =
        (some (.indexError "Position out of range"), s)) ∧
    (kvs ≠ [] → 0 ≤ position → position ≤ (s.length : Int) →
      insert_at s position (.dict kvs) =
        (none, s.take position.toNat ++ .dict kvs :: s.drop position.toNat)) ∧
    (kvs = [] → insert_at s position (.dict kvs) = (none, s)) := by
  refine ⟨?_, ?_, ?_⟩
  · intro hk hout
    have hk' : kvs.isEmpty = false := by
      cases kvs with
      | nil => exact absurd rfl hk
      | cons a l => rfl
    unfold insert_at
    rcases hout with hlt | hgt
    · simp [hk', hlt]
    · have : position > (s.length : Int) := hgt
      simp [hk', this]
  · intro hk h0 hlen
    have hk' : kvs.isEmpty = false := by
      cases kvs with
      | nil => exact absurd rfl hk
      | cons a l => rfl
    have hnlt : ¬ position < 0 := not_lt.mpr h0
    have hngt : ¬ position > (s.length : Int) := not_lt.mpr hlen
    have htn : position.toNat ≤ s.length := by omega
    unfold insert_at
    simp [hk', hnlt, hngt, insertIdx_eq_take_cons_drop _ _ _ htn]
  · intro hk
    subst hk
    rfl

/-- Witness for C6 amended: position `-1` with a non-empty stage raises
the range error on the empty builder. -/
theorem c6_amended_insert_at_witness :
    insert_at [] (-1) (PyVal.dict [("$match", PyVal.none)]) =
      (some (.indexError "Position out of range"), []) :=
  (c6_amended_insert_at_spec [] (-1) [("$match", PyVal.none)]).1
    (List.cons_ne_nil _ _) (Or.inl (by decide))

/-- In a list of strings, every element is truthy exactly when no element
is the empty string. -/
theorem all_truthy_iff_no_empty_str :
    ∀ fs : List PyVal, fs.all isStr = true →
      fs.all PyVal.truthy = !fs.any isEmptyStr := by
  intro fs h
  induction fs with
  | nil => rfl
  | cons v rest ih =>
      simp only [List.all_cons, Bool.and_eq_true] at h
      have ih' := ih h.2
      cases v <;> simp_all [isStr, isEmptyStr, PyVal.truthy, List.all_cons,
        List.any_cons, Bool.not_or, bne]

/-- A non-empty string value is a string and truthy. -/
theorem isNonEmptyStr_split (v : PyVal) (h : isNonEmptyStr v = true) :
    isStr v = true ∧ v.truthy = true := by
  cases v <;> simp_all [isNonEmptyStr, isStr, PyVal.truthy]

/-- **C8**: over the declared argument domain of `unset` (null, a string,
or a list of arbitrary values), a non-empty string stays a scalar
payload, a singleton list of one non-empty string collapses to that
scalar, a list of two or more non-empty strings is appended verbatim, and
the call raises exactly when the argument is null, an empty string, an
empty list, or a list containing a non-string or empty-string element. -/
theorem c8_unset_spec (s : Stages) (fields : PyVal)
    (hdom : unsetDomain fields = true) :
    (∀ f : String, fields = .str f → f ≠ "" →
      unset s fields = (none, s ++ [.dict [("$unset", .str f)]])) ∧
    (∀ f : String, fields = .list [.str f] → f ≠ "" →
      unset s fields = (none, s ++ [.dict [("$unset", .str f)]])) ∧
    (∀ fs : List PyVal, fields = .list fs → 2 ≤ fs.length →
      fs.all isNonEmptyStr = true →
      unset s fields = (none, s ++ [.dict [("$unset", .list fs)]])) ∧
    (unset s fields).1.isSome = unsetErrCond fields := by
  cases fields with
  | none =>
      refine ⟨?_, ?_, ?_, rfl⟩
      · intro f hf
        exact nomatch hf
      · intro f hf
        exact nomatch hf
      · intro fs hf
        exact nomatch hf
  | str f0 =>
      refine ⟨?_, ?_, ?_, ?_⟩
      · intro f hf hne
        cases hf
        have hb : (f0 == "") = false := by
          simpa using hne
        simp [unset, hb]
      · intro f hf
        exact nomatch hf
      · intro fs hf
        exact nomatch hf
      · by_cases hb : (f0 == "") = true
        · simp [unset, unsetErrCond, hb]
        · have hb' : (f0 == "") = false := by
            simpa using hb
          simp [unset, unsetErrCond, hb']
  | list fs0 =>
      refine ⟨?_, ?_, ?_, ?_⟩
      · intro f hf
        exact nomatch hf
      · intro f hf hne
        cases hf
        have hb : (f == "") = false := by
          simpa using hne
        simp [unset, isStr, PyVal.truthy, hb, hne]
      · intro fs hf hlen hall
        cases hf
        have h1 : fs0.all isStr = true := by
          rw [List.all_eq_true] at hall ⊢
          exact fun x hx => (isNonEmptyStr_split x (hall x hx)).1
        have h2 : fs0.all PyVal.truthy = true := by
          rw [List.all_eq_true] at hall ⊢
          exact fun x hx => (isNonEmptyStr_split x (hall x hx)).2
        have h3 : ¬ fs0.isEmpty = true := by
          cases fs0 with
          | nil => simp at hlen
          | cons a l => simp
        have h4 : fs0.length > 1 := hlen
        unfold unset
        dsimp only
        rw [if_neg h3, if_neg (by simp [h1]), if_neg (by simp [h2]), if_pos h4]
      · unfold unset unsetErrCond
        dsimp only
        by_cases h3 : fs0.isEmpty = true
        · rw [if_pos h3]
          simp [h3]
        · have h3' : fs0.isEmpty = false := by
            simpa using h3
          rw [if_neg h3]
          by_cases h1 : fs0.all isStr = true
          · have htr := all_truthy_iff_no_empty_str fs0 h1
            rw [if_neg (by simp [h1])]
            by_cases h2 : fs0.all PyVal.truthy = true
            · have hany : fs0.any isEmptyStr = false := by
                rw [h2] at htr
                cases hv : fs0.any isEmptyStr
                · rfl
                · rw [hv] at htr
                  simp at htr
              rw [if_neg (by simp [h2])]
              simp [h3', h1, hany]
            · have h2' : fs0.all PyVal.truthy = false := by
                simpa using h2
              have hany : fs0.any isEmptyStr = true := by
                rw [h2'] at htr
                cases hv : fs0.any isEmptyStr
                · rw [hv] at htr
                  simp at htr
                · rfl
              rw [if_pos (by simp [h2'])]
              simp [h3', hany]
          · have h1' : fs0.all isStr = false := by
              simpa using h1
            rw [if_pos (by simp [h1'])]
            simp [h3', h1']
  | bool b => exact nomatch hdom
  | int n => exact nomatch hdom
  | dict kvs => exact nomatch hdom

/-- Witness for C8: the documentation's single-field example appends the
scalar payload. -/
theorem c8_unset_witness :
    unset [] (.str "temp_field") =
      (none, [PyVal.dict [("$unset", .str "temp_field")]]) :=
  (c8_unset_spec [] (.str "temp_field") rfl).1 "temp_field" rfl (by decide)

/-- Appending a truthy element preserves all-elements-truthy. -/
theorem allTruthy_append (s : Stages) (x : PyVal)
    (hs : ∀ st ∈ s, st.truthy = true) (hx : x.truthy = true) :
    ∀ st ∈ s ++ [x], st.truthy = true := by
  intro st hmem
  rcases List.mem_append.mp hmem with h | h
  · exact hs st h
  · rw [List.mem_singleton.mp h]
    exact hx

/-- Prepending a truthy element preserves all-elements-truthy. -/
theorem allTruthy_cons (s : Stages) (x : PyVal)
    (hs : ∀ st ∈ s, st.truthy = true) (hx : x.truthy = true) :
    ∀ st ∈ x :: s, st.truthy = true := by
  intro st hmem
  rcases List.mem_cons.mp hmem with h | h
  · rw [h]
    exact hx
  · exact hs st h

/-- **C1 counterexample**: the claim's invariant "every element of every
reachable stage sequence has exactly one top-level key" fails: a mapping
with two top-level keys passed to `prepend` is accepted verbatim, so a
reachable state contains a two-key stage. -/
theorem c1_single_key_invariant_cex :
    Reachable [PyVal.dict [("$a", .int 1), ("$b", .int 2)]] ∧
    ¬ (∀ st ∈ [PyVal.dict [("$a", .int 1), ("$b", .int 2)]],
        topKeyCount st = 1) := by
  constructor
  · have h1 := Reachable.step_prepend []
      (PyVal.dict [("$a", .int 1), ("$b", .int 2)]) Reachable.init
    simpa [prepend] using h1
  · intro hall
    have h2 := hall (PyVal.dict [("$a", .int 1), ("$b", .int 2)]) (by simp)
    simp [topKeyCount] at h2

/-- **C1 amended**: what the operations actually preserve is that every
element ever held in the sequence is truthy (non-empty): the named stage
constructors append non-empty single-key mappings, but `prepend` and
`insert_at` accept any non-empty mapping (with any number of keys) and
`add_stage` accepts any truthy value, so "exactly one top-level key"
weakens to "non-empty". -/
theorem c1_amended_reachable_stages_truthy (s : Stages) (h : Reachable s) :
    ∀ st ∈ s, st.truthy = true := by
  induction h with
  | init =>
      intro st hmem
      exact absurd hmem (List.not_mem_nil st)
  | step_match s c _ ih =>
      unfold match_
      repeat' split
      all_goals first
        | exact ih
        | exact allTruthy_append s _ ih rfl
  | step_lookup s a b c d p _ ih =>
      unfold lookup
      repeat' split
      all_goals first
        | exact ih
        | exact allTruthy_append s _ ih rfl
  | step_add_fields s f _ ih =>
      unfold add_fields
      repeat' split
      all_goals first
        | exact ih
        | exact allTruthy_append s _ ih rfl
  | step_project s f _ ih =>
      unfold project
      repeat' split
      all_goals first
        | exact ih
        | exact allTruthy_append s _ ih rfl
  | step_group s g acc _ ih =>
      unfold group
      repeat' split
      all_goals first
        | exact ih
        | exact allTruthy_append s _ ih rfl
  | step_unwind s p pr ix _ ih =>
      unfold unwind
      repeat' split
      all_goals first
        | exact ih
        | exact allTruthy_append s _ ih rfl
  | step_sort s f _ ih =>
      unfold sort
      repeat' split
      all_goals first
        | exact ih
        | exact allTruthy_append s _ ih rfl
  | step_limit s n _ ih =>
      unfold limit
      repeat' split
      all_goals first
        | exact ih
        | exact allTruthy_append s _ ih rfl
  | step_skip s n _ ih =>
      unfold skip
      repeat' split
      all_goals first
        | exact ih
        | exact allTruthy_append s _ ih rfl
  | step_unset s f _ ih =>
      unfold unset
      repeat' split
      all_goals first
        | exact ih
        | exact allTruthy_append s _ ih rfl
  | step_replace_root s r _ ih =>
      unfold replace_root
      repeat' split
      all_goals first
        | exact ih
        | exact allTruthy_append s _ ih rfl
  | step_replace_with s r _ ih =>
      unfold replace_with
      repeat' split
      all_goals first
        | exact ih
        | exact allTruthy_append s _ ih rfl
  | step_facet s f _ ih =>
      unfold facet
      repeat' split
      all_goals first
        | exact ih
        | exact allTruthy_append s _ ih rfl
  | step_count s f _ ih =>
      unfold count
      repeat' split
      all_goals first
        | exact ih
        | exact allTruthy_append s _ ih rfl
  | step_set_field s f _ ih =>
      unfold set_field
      repeat' split
      all_goals first
        | exact ih
        | exact allTruthy_append s _ ih rfl
  | step_add_stage s st _ ih =>
      unfold add_stage
      split
      · exact allTruthy_append s _ ih (by assumption)
      · exact ih
  | step_clear s _ ih =>
      intro st hmem
      exact absurd hmem (List.not_mem_nil st)
  | step_prepend s st _ ih =>
      unfold prepend
      repeat' split
      all_goals first
        | exact ih
        | (rename_i kvs hk
           exact allTruthy_cons s _ ih (by simp [PyVal.truthy, hk]))
  | step_insert_at s p st _ ih =>
      unfold insert_at
      repeat' split
      all_goals try exact ih
      rename_i kvs hk hcond
      intro x hmem
      have hle : p.toNat ≤ s.length := by
        simp only [Bool.or_eq_true, decide_eq_true_eq, not_or] at hcond
        omega
      rcases (List.mem_insertIdx hle).mp hmem with hx | hx
      · rw [hx]
        simp [PyVal.truthy, hk]
      · exact ih x hx

/-- A string needle occurs under Python equality iff the corresponding
string value is an element. -/
theorem any_pyStrEq_iff_mem (t : String) :
    ∀ l : List PyVal, l.any (pyStrEq t) = true ↔ PyVal.str t ∈ l := by
  intro l
  induction l with
  | nil => simp
  | cons y rest ih =>
      rw [List.any_cons, Bool.or_eq_true, ih, List.mem_cons]
      constructor
      · rintro (h | h)
        · left
          cases y with
          | str s =>
              have hts : t = s := by simpa [pyStrEq] using h
              rw [hts]
          | none => exact nomatch h
          | bool b => exact nomatch h
          | int n => exact nomatch h
          | list xs => exact nomatch h
          | dict kvs => exact nomatch h
        · right
          exact h
      · rintro (h | h)
        · left
          rw [← h]
          simp [pyStrEq]
        · right
          exact h

/-- If the needle occurs, its first-occurrence index is in range. -/
theorem pyIndex_lt_length {x : String} :
    ∀ {l : List PyVal}, l.any (pyStrEq x) = true → pyIndex l x < l.length := by
  intro l h
  induction l with
  | nil => simp at h
  | cons y rest ih =>
      unfold pyIndex
      by_cases hy : pyStrEq x y = true
      · simp [hy]
      · have hr : rest.any (pyStrEq x) = true := by
          simpa [List.any_cons, hy] using h
        rw [if_neg hy]
        simpa using Nat.succ_lt_succ (ih hr)

/-- The element at the first-occurrence index is the needle itself. -/
theorem getElem?_pyIndex {x : String} :
    ∀ {l : List PyVal}, l.any (pyStrEq x) = true →
      l[pyIndex l x]? = some (PyVal.str x) := by
  intro l h
  induction l with
  | nil => simp at h
  | cons y rest ih =>
      unfold pyIndex
      by_cases hy : pyStrEq x y = true
      · rw [if_pos hy]
        cases y with
        | str s =>
            have hxs : x = s := by simpa [pyStrEq] using hy
            rw [hxs]
            simp
        | none => exact nomatch hy
        | bool b => exact nomatch hy
        | int n => exact nomatch hy
        | list xs => exact nomatch hy
        | dict kvs => exact nomatch hy
      · have hr : rest.any (pyStrEq x) = true := by
          simpa [List.any_cons, hy] using h
        rw [if_neg hy]
        simpa using ih hr

/-- The first-occurrence index is minimal among occurrence indices. -/
theorem pyIndex_le_of_getElem? {x : String} :
    ∀ {l : List PyVal} {i : Nat} {v : PyVal}, l[i]? = some v →
      pyStrEq x v = true → pyIndex l x ≤ i := by
  intro l
  induction l with
  | nil =>
      intro i v h _
      simp at h
  | cons y rest ih =>
      intro i v h hv
      unfold pyIndex
      by_cases hy : pyStrEq x y = true
      · simp [hy]
      · rw [if_neg hy]
        cases i with
        | zero =>
            have hyv : y = v := by simpa using h
            rw [hyv] at hy
            exact absurd hv hy
        | succ i =>
            have h' : rest[i]? = some v := by simpa using h
            exact Nat.succ_le_succ (ih h' hv)

/-- **C2 counterexample**: the claim quantifies over every builder state
and allows only success or a value error; but `add_stage(5)` reaches the
state `[5]`, on which `validate()` evaluates `next(iter(5))` and
propagates a `TypeError` — neither success nor a `ValueError` — although
the sequence is non-empty and holds no `$out` or `$merge` stage. -/
theorem c2_validate_type_error_cex :
    Reachable [PyVal.int 5] ∧
    validate [PyVal.int 5] = .error (.typeError "object is not iterable") ∧
    validate [PyVal.int 5] ≠ .ok true ∧
    ¬ ∃ m, validate [PyVal.int 5] = .error (.valueError m) := by
  refine ⟨?_, rfl, ?_, ?_⟩
  · have h1 := Reachable.step_add_stage [] (PyVal.int 5) Reachable.init
    simpa [add_stage, PyVal.truthy] using h1
  · intro h
    exact nomatch h
  · rintro ⟨m, hm⟩
    exact nomatch hm

/-- **C2 amended**: `validate()` on the empty sequence raises the
empty-pipeline `ValueError`; on a non-empty sequence whose stage-type
listing fails (a stage that is not iterable, or an empty one) it
propagates that iteration error instead of a value error; and whenever
the stage-type listing yields `ts`, it returns success exactly when the
sequence is non-empty, does not contain both a `$out`-typed and a
`$merge`-typed stage, and every such terminal stage type occupies the
last position — and raises a `ValueError` in every other such case. -/
theorem c2_validate_ok_iff (s : Stages) :
    (s = [] → validate s = .error (.valueError "Pipeline cannot be empty")) ∧
    (∀ e, get_stage_types s = .error e → s ≠ [] → validate s = .error e) ∧
    (∀ ts, get_stage_types s = .ok ts →
      ((validate s = .ok true ↔
        (s ≠ [] ∧ ¬(PyVal.str "$out" ∈ ts ∧ PyVal.str "$merge" ∈ ts) ∧
          eachTerminalLast ts)) ∧
       (¬(s ≠ [] ∧ ¬(PyVal.str "$out" ∈ ts ∧ PyVal.str "$merge" ∈ ts) ∧
          eachTerminalLast ts) →
        ∃ m, validate s = .error (.valueError m)))) := by
  refine ⟨?_, ?_, ?_⟩
  · intro h
    subst h
    rfl
  · intro e he hne
    have hse : s.isEmpty = false := by
      simpa [List.isEmpty_iff] using hne
    simp [validate, hse, he]
  · intro ts hts
    have p1 : validate s = .ok true →
        (s ≠ [] ∧ ¬(PyVal.str "$out" ∈ ts ∧ PyVal.str "$merge" ∈ ts) ∧
          eachTerminalLast ts) := by
      intro h
      unfold validate at h
      simp only [hts] at h
      split at h
      · exact nomatch h
      · split at h
        · exact nomatch h
        · split at h
          · exact nomatch h
          · split at h
            · exact nomatch h
            · rename_i hse hboth hout hmerge
              refine ⟨by simpa [List.isEmpty_iff] using hse, ?_, ?_⟩
              · rintro ⟨hmo, hmm⟩
                refine hboth ?_
                rw [Bool.and_eq_true]
                exact ⟨(any_pyStrEq_iff_mem "$out" ts).mpr hmo,
                  (any_pyStrEq_iff_mem "$merge" ts).mpr hmm⟩
              · intro i x hx hor
                have hxm : x ∈ ts := List.getElem?_mem hx
                have hlt : i < ts.length := (List.getElem?_eq_some.mp hx).1
                rcases hor with hx' | hx'
                · subst hx'
                  have hco : ts.any (pyStrEq "$out") = true :=
                    (any_pyStrEq_iff_mem "$out" ts).mpr hxm
                  have hio : pyIndex ts "$out" = ts.length - 1 := by
                    by_contra hne
                    refine hout ?_
                    rw [hco]
                    simpa using hne
                  have hle := pyIndex_le_of_getElem? (x := "$out") hx
                    (by simp [pyStrEq])
                  omega
                · subst hx'
                  have hco : ts.any (pyStrEq "$merge") = true :=
                    (any_pyStrEq_iff_mem "$merge" ts).mpr hxm
                  have hio : pyIndex ts "$merge" = ts.length - 1 := by
                    by_contra hne
                    refine hmerge ?_
                    rw [hco]
                    simpa using hne
                  have hle := pyIndex_le_of_getElem? (x := "$merge") hx
                    (by simp [pyStrEq])
                  omega
    have p2 : (s ≠ [] ∧ ¬(PyVal.str "$out" ∈ ts ∧ PyVal.str "$merge" ∈ ts) ∧
        eachTerminalLast ts) → validate s = .ok true := by
      rintro ⟨hne, hnboth, hetl⟩
      have hse : s.isEmpty = false := by
        simpa [List.isEmpty_iff] using hne
      have hb : (ts.any (pyStrEq "$out") && ts.any (pyStrEq "$merge")) = false := by
        cases h1 : ts.any (pyStrEq "$out")
        · rfl
        · cases h2 : ts.any (pyStrEq "$merge")
          · rfl
          · exact absurd ⟨(any_pyStrEq_iff_mem "$out" ts).mp h1,
              (any_pyStrEq_iff_mem "$merge" ts).mp h2⟩ hnboth
      have hc2 : (ts.any (pyStrEq "$out") &&
          (pyIndex ts "$out" != ts.length - 1)) = false := by
        cases h1 : ts.any (pyStrEq "$out")
        · rfl
        · have hg := getElem?_pyIndex h1
          have hidx := hetl _ _ hg (Or.inl rfl)
          simp [hidx]
      have hc3 : (ts.any (pyStrEq "$merge") &&
          (pyIndex ts "$merge" != ts.length - 1)) = false := by
        cases h1 : ts.any (pyStrEq "$merge")
        · rfl
        · have hg := getElem?_pyIndex h1
          have hidx := hetl _ _ hg (Or.inr rfl)
          simp [hidx]
      unfold validate
      simp only [hts]
      split
      · rename_i h0
        rw [hse] at h0
        exact nomatch h0
      · split
        · rename_i h1
          rw [hb] at h1
          exact nomatch h1
        · split
          · rename_i h2
            rw [hc2] at h2
            exact nomatch h2
          · split
            · rename_i h3
              rw [hc3] at h3
              exact nomatch h3
            · rfl
    have ptotal : validate s = .ok true ∨
        ∃ m, validate s = .error (.valueError m) := by
      unfold validate
      simp only [hts]
      repeat' split
      all_goals first
        | (left; rfl)
        | (right; exact ⟨_, rfl⟩)
    refine ⟨⟨p1, p2⟩, ?_⟩
    intro hn
    rcases ptotal with hok | herr
    · exact absurd (p1 hok) hn
    · exact herr

/-- Witness for C2 amended: a one-stage `$match` pipeline validates. -/
theorem c2_validate_witness :
    validate [PyVal.dict [("$match", PyVal.dict [("a", PyVal.int 1)])]] =
      .ok true :=
  (((c2_validate_ok_iff
      [PyVal.dict [("$match", PyVal.dict [("a", PyVal.int 1)])]]).2.2
      [PyVal.str "$match"] rfl).1).mpr
    ⟨List.cons_ne_nil _ _,
     by
       rintro ⟨h1, _⟩
       simp at h1,
     by
       intro i x hx hor
       cases i with
       | zero => rfl
       | succ i => simp at hx⟩

/-- Witness for C1 amended: a concrete stage of a concretely reachable
state is truthy. -/
theorem c1_amended_witness :
    PyVal.truthy (PyVal.dict [("$match", PyVal.dict [])]) = true :=
  c1_amended_reachable_stages_truthy _
    (Reachable.step_add_stage [] (PyVal.dict [("$match", PyVal.dict [])])
      Reachable.init)
    (PyVal.dict [("$match", PyVal.dict [])])
    (by simp [add_stage, PyVal.truthy])

/-- A successful address lookup comes from a heap entry. -/
theorem lookupAddr_mem {h : Heap} {a : Nat} {o : HObj}
    (hlk : Heap.lookupAddr h a = some o) : ∃ p ∈ h, p.1 = a ∧ p.2 = o := by
  unfold Heap.lookupAddr at hlk
  cases hfind : List.find? (fun p => p.1 == a) h with
  | none =>
      rw [hfind] at hlk
      exact nomatch hlk
  | some p =>
      rw [hfind] at hlk
      cases hlk
      have hmem := List.mem_of_find?_eq_some hfind
      have hpa := List.find?_some hfind
      exact ⟨p, hmem, by simpa using hpa, rfl⟩

/-- Addresses below `fr` are looked up in the low part of the heap. -/
theorem lookupAddr_append_of_lt (h ext : Heap) (fr a : Nat)
    (hext : ∀ p ∈ ext, fr ≤ p.1) (ha : a < fr) :
    Heap.lookupAddr (h ++ ext) a = Heap.lookupAddr h a := by
  unfold Heap.lookupAddr
  rw [List.find?_append]
  have hnone : List.find? (fun p => p.1 == a) ext = none := by
    rw [List.find?_eq_none]
    intro p hp
    have := hext p hp
    simp only [beq_iff_eq]
    omega
  rw [hnone]
  cases List.find? (fun p => p.1 == a) h <;> rfl

/-- Addresses at or above `fr` are looked up in the high part of the
heap when the low part is closed below `fr`. -/
theorem lookupAddr_append_of_ge (h ext : Heap) (fr a : Nat)
    (hlow : ∀ p ∈ h, p.1 < fr) (ha : fr ≤ a) :
    Heap.lookupAddr (h ++ ext) a = Heap.lookupAddr ext a := by
  unfold Heap.lookupAddr
  rw [List.find?_append]
  have hnone : List.find? (fun p => p.1 == a) h = none := by
    rw [List.find?_eq_none]
    intro p hp
    have := hlow p hp
    simp only [beq_iff_eq]
    omega
  rw [hnone]
  rfl

/-- In a closed heap every stored object's references are below `fr`. -/
theorem lookupAddr_closed {h : Heap} {fr : Nat} (hcl : HeapClosed h fr = true)
    {a : Nat} {o : HObj} (hlk : Heap.lookupAddr h a = some o) :
    objBelow o fr = true := by
  obtain ⟨p, hmem, _, hpo⟩ := lookupAddr_mem hlk
  unfold HeapClosed at hcl
  have := List.all_eq_true.mp hcl p hmem
  simp only [Bool.and_eq_true] at this
  rw [← hpo]
  exact this.2

/-- Updating at a high address only touches the high part of the heap. -/
theorem update_append_of_ge (h ext : Heap) (fr a : Nat) (o : HObj)
    (hlow : ∀ p ∈ h, p.1 < fr) (ha : fr ≤ a) :
    Heap.update (h ++ ext) a o = h ++ Heap.update ext a o := by
  unfold Heap.update
  rw [List.map_append]
  congr 1
  have hfix : ∀ p ∈ h, (if p.1 == a then (a, o) else p) = p := by
    intro p hp
    have := hlow p hp
    have hne : (p.1 == a) = false := by
      simp only [beq_eq_false_iff_ne, ne_eq]
      omega
    simp [hne]
  rw [List.map_congr_left hfix]
  exact List.map_id h

/-- Updating preserves address highness. -/
theorem update_addrs_ge (ext : Heap) (fr a : Nat) (o : HObj)
    (hext : ∀ p ∈ ext, fr ≤ p.1) (ha : fr ≤ a) :
    ∀ p ∈ Heap.update ext a o, fr ≤ p.1 := by
  intro p hp
  unfold Heap.update at hp
  rcases List.mem_map.mp hp with ⟨q, hq, hpq⟩
  by_cases hqa : (q.1 == a) = true
  · rw [if_pos hqa] at hpq
    rw [← hpq]
    exact ha
  · have hqa' : (q.1 == a) = false := by
      simpa using hqa
    simp only [hqa', Bool.false_eq_true, if_false] at hpq
    rw [← hpq]
    exact hext q hq

/-- Snapshots of low-reference values ignore a high heap extension. -/
theorem snapshotVals_append_high (fr : Nat) (h ext : Heap)
    (hcl : HeapClosed h fr = true) (hext : ∀ p ∈ ext, fr ≤ p.1) :
    ∀ fuel (vs : List HVal), (∀ v ∈ vs, valBelow v fr = true) →
      snapshotVals fuel (h ++ ext) vs = snapshotVals fuel h vs := by
  intro fuel
  induction fuel with
  | zero =>
      intro vs _
      cases vs with
      | nil => rfl
      | cons v rest => rfl
  | succ fuel ih =>
      intro vs hvs
      cases vs with
      | nil => rfl
      | cons v rest =>
          have hrest : ∀ x ∈ rest, valBelow x fr = true :=
            fun x hx => hvs x (List.mem_cons_of_mem v hx)
          cases v with
          | int n =>
              simp only [snapshotVals]
              rw [ih rest hrest]
          | str s =>
              simp only [snapshotVals]
              rw [ih rest hrest]
          | ref a =>
              have hv := hvs (HVal.ref a) (List.mem_cons_self _ _)
              have ha : a < fr := by
                simpa [valBelow] using hv
              simp only [snapshotVals]
              rw [lookupAddr_append_of_lt h ext fr a hext ha]
              cases hlk : Heap.lookupAddr h a with
              | none => rfl
              | some o =>
                  have hob := lookupAddr_closed hcl hlk
                  cases o with
                  | dict kvs =>
                      have hob' : kvs.all (fun kv => valBelow kv.2 fr) = true := hob
                      have hch : ∀ x ∈ kvs.map Prod.snd, valBelow x fr = true := by
                        intro x hx
                        rcases List.mem_map.mp hx with ⟨kv, hkv, hkvx⟩
                        have := List.all_eq_true.mp hob' kv hkv
                        rw [← hkvx]
                        exact this
                      dsimp only
                      rw [ih (kvs.map Prod.snd) hch, ih rest hrest]
                  | list xs =>
                      have hob' : xs.all (fun v => valBelow v fr) = true := hob
                      have hch : ∀ x ∈ xs, valBelow x fr = true := by
                        intro x hx
                        exact List.all_eq_true.mp hob' x hx
                      dsimp only
                      rw [ih xs hch, ih rest hrest]

/-- `valAtLeast` is antitone in the bound. -/
theorem valAtLeast_mono {v : HVal} {f1 f2 : Nat} (hle : f1 ≤ f2)
    (h : valAtLeast v f2 = true) : valAtLeast v f1 = true := by
  cases v with
  | ref a =>
      simp only [valAtLeast, decide_eq_true_eq] at h ⊢
      omega
  | int n => rfl
  | str s => rfl

/-- `objAtLeast` is antitone in the bound. -/
theorem objAtLeast_mono {o : HObj} {f1 f2 : Nat} (hle : f1 ≤ f2)
    (h : objAtLeast o f2 = true) : objAtLeast o f1 = true := by
  cases o with
  | dict kvs =>
      simp only [objAtLeast, List.all_eq_true] at h ⊢
      exact fun kv hkv => valAtLeast_mono hle (h kv hkv)
  | list xs =>
      simp only [objAtLeast, List.all_eq_true] at h ⊢
      exact fun v hv => valAtLeast_mono hle (h v hv)

/-- `deepcopyVals` only extends the heap with fresh addresses, the next
fresh counter never decreases, the returned values reference only fresh
addresses, and every newly allocated object references only fresh
addresses. -/
theorem deepcopyVals_extends :
    ∀ (fuel : Nat) (h : Heap) (fr : Nat) (vs : List HVal) (h2 : Heap)
      (f2 : Nat) (vs2 : List HVal),
      deepcopyVals fuel h fr vs = some (h2, f2, vs2) →
      fr ≤ f2 ∧ (∀ v ∈ vs2, valAtLeast v fr = true) ∧
      ∃ ext, h2 = h ++ ext ∧
        ∀ p ∈ ext, fr ≤ p.1 ∧ objAtLeast p.2 fr = true := by
  intro fuel
  induction fuel with
  | zero =>
      intro h fr vs h2 f2 vs2 hdc
      cases vs with
      | nil =>
          cases hdc
          refine ⟨Nat.le_refl fr, ?_, [], by simp, ?_⟩
          · intro v hv
            exact absurd hv (List.not_mem_nil v)
          · intro p hp
            exact absurd hp (List.not_mem_nil p)
      | cons v rest => exact nomatch hdc
  | succ fuel ih =>
      intro h fr vs h2 f2 vs2 hdc
      cases vs with
      | nil =>
          cases hdc
          refine ⟨Nat.le_refl fr, ?_, [], by simp, ?_⟩
          · intro v hv
            exact absurd hv (List.not_mem_nil v)
          · intro p hp
            exact absurd hp (List.not_mem_nil p)
      | cons v rest =>
          cases v with
          | int n =>
              simp only [deepcopyVals] at hdc
              rcases Option.map_eq_some'.mp hdc with ⟨r, hr, hmap⟩
              obtain ⟨rh, rf, rvs⟩ := r
              cases hmap
              obtain ⟨hle, hatl, ext, hexteq, hextp⟩ :=
                ih h fr rest rh rf rvs hr
              refine ⟨hle, ?_, ext, hexteq, hextp⟩
              intro x hx
              rcases List.mem_cons.mp hx with hx1 | hx1
              · rw [hx1]
                rfl
              · exact hatl x hx1
          | str sv =>
              simp only [deepcopyVals] at hdc
              rcases Option.map_eq_some'.mp hdc with ⟨r, hr, hmap⟩
              obtain ⟨rh, rf, rvs⟩ := r
              cases hmap
              obtain ⟨hle, hatl, ext, hexteq, hextp⟩ :=
                ih h fr rest rh rf rvs hr
              refine ⟨hle, ?_, ext, hexteq, hextp⟩
              intro x hx
              rcases List.mem_cons.mp hx with hx1 | hx1
              · rw [hx1]
                rfl
              · exact hatl x hx1
          | ref a =>
              simp only [deepcopyVals] at hdc
              cases hlk : Heap.lookupAddr h a with
              | none =>
                  rw [hlk] at hdc
                  exact nomatch hdc
              | some o =>
                rw [hlk] at hdc
                cases o with
                | dict kvs =>
                  dsimp only at hdc
                  cases heq1 : deepcopyVals fuel h fr (kvs.map Prod.snd) with
                  | none =>
                      rw [heq1] at hdc
                      exact nomatch hdc
                  | some r1 =>
                    rw [heq1] at hdc
                    obtain ⟨h1, f1, vs1⟩ := r1
                    dsimp only at hdc
                    cases heq2 : deepcopyVals fuel
                        (h1 ++ [(f1, HObj.dict ((kvs.map Prod.fst).zip vs1))])
                        (f1 + 1) rest with
                    | none =>
                        rw [heq2] at hdc
                        exact nomatch hdc
                    | some r2 =>
                    rw [heq2] at hdc
                    obtain ⟨hh2, ff2, rest1⟩ := r2
                    dsimp only at hdc
                    cases hdc
                    obtain ⟨hle1, hatl1, ext1, hexteq1, hextp1⟩ :=
                      ih h fr (kvs.map Prod.snd) h1 f1 vs1 heq1
                    obtain ⟨hle2, hatl2, ext2, hexteq2, hextp2⟩ :=
                      ih (h1 ++ [(f1, HObj.dict ((kvs.map Prod.fst).zip vs1))])
                        (f1 + 1) rest h2 f2 rest1 heq2
                    refine ⟨by omega, ?_, ?_⟩
                    · intro x hx
                      rcases List.mem_cons.mp hx with hx1 | hx1
                      · rw [hx1]
                        simp only [valAtLeast, decide_eq_true_eq]
                        omega
                      · exact valAtLeast_mono (by omega) (hatl2 x hx1)
                    · refine ⟨ext1 ++ (f1, HObj.dict ((kvs.map Prod.fst).zip vs1)) :: ext2, ?_, ?_⟩
                      · rw [hexteq2, hexteq1]
                        simp
                      · intro p hp
                        rcases List.mem_append.mp hp with hp1 | hp1
                        · exact hextp1 p hp1
                        · rcases List.mem_cons.mp hp1 with hp2 | hp2
                          · rw [hp2]
                            refine ⟨by omega, ?_⟩
                            simp only [objAtLeast, List.all_eq_true]
                            intro kv hkv
                            exact hatl1 kv.2 (List.of_mem_zip hkv).2
                          · obtain ⟨hp3, hp4⟩ := hextp2 p hp2
                            exact ⟨by omega, objAtLeast_mono (by omega) hp4⟩
                | list xs =>
                  dsimp only at hdc
                  cases heq1 : deepcopyVals fuel h fr xs with
                  | none =>
                      rw [heq1] at hdc
                      exact nomatch hdc
                  | some r1 =>
                    rw [heq1] at hdc
                    obtain ⟨h1, f1, vs1⟩ := r1
                    dsimp only at hdc
                    cases heq2 : deepcopyVals fuel (h1 ++ [(f1, HObj.list vs1)])
                        (f1 + 1) rest with
                    | none =>
                        rw [heq2] at hdc
                        exact nomatch hdc
                    | some r2 =>
                    rw [heq2] at hdc
                    obtain ⟨hh2, ff2, rest1⟩ := r2
                    dsimp only at hdc
                    cases hdc
                    obtain ⟨hle1, hatl1, ext1, hexteq1, hextp1⟩ :=
                      ih h fr xs h1 f1 vs1 heq1
                    obtain ⟨hle2, hatl2, ext2, hexteq2, hextp2⟩ :=
                      ih (h1 ++ [(f1, HObj.list vs1)]) (f1 + 1) rest h2 f2 rest1 heq2
                    refine ⟨by omega, ?_, ?_⟩
                    · intro x hx
                      rcases List.mem_cons.mp hx with hx1 | hx1
                      · rw [hx1]
                        simp only [valAtLeast, decide_eq_true_eq]
                        omega
                      · exact valAtLeast_mono (by omega) (hatl2 x hx1)
                    · refine ⟨ext1 ++ (f1, HObj.list vs1) :: ext2, ?_, ?_⟩
                      · rw [hexteq2, hexteq1]
                        simp
                      · intro p hp
                        rcases List.mem_append.mp hp with hp1 | hp1
                        · exact hextp1 p hp1
                        · rcases List.mem_cons.mp hp1 with hp2 | hp2
                          · rw [hp2]
                            refine ⟨by omega, ?_⟩
                            simp only [objAtLeast, List.all_eq_true]
                            intro x hx
                            exact hatl1 x hx
                          · obtain ⟨hp3, hp4⟩ := hextp2 p hp2
                            exact ⟨by omega, objAtLeast_mono (by omega) hp4⟩

/-- Reachable addresses of high values in a low-closed heap with a high
extension are all high. -/
theorem reachAddrs_high (fr : Nat) (h ext : Heap)
    (hlow : ∀ p ∈ h, p.1 < fr)
    (hext : ∀ p ∈ ext, fr ≤ p.1 ∧ objAtLeast p.2 fr = true) :
    ∀ fuel (vs : List HVal), (∀ v ∈ vs, valAtLeast v fr = true) →
      ∀ b ∈ reachAddrs fuel (h ++ ext) vs, fr ≤ b := by
  intro fuel
  induction fuel with
  | zero =>
      intro vs _ b hb
      cases vs with
      | nil => exact absurd hb (List.not_mem_nil b)
      | cons v rest => exact absurd hb (List.not_mem_nil b)
  | succ fuel ih =>
      intro vs hvs b hb
      cases vs with
      | nil => exact absurd hb (List.not_mem_nil b)
      | cons v rest =>
          have hrest : ∀ x ∈ rest, valAtLeast x fr = true :=
            fun x hx => hvs x (List.mem_cons_of_mem v hx)
          cases v with
          | int n =>
              simp only [reachAddrs] at hb
              exact ih rest hrest b hb
          | str sv =>
              simp only [reachAddrs] at hb
              exact ih rest hrest b hb
          | ref a =>
              have ha : fr ≤ a := by
                have := hvs (HVal.ref a) (List.mem_cons_self _ _)
                simpa [valAtLeast] using this
              simp only [reachAddrs] at hb
              rw [lookupAddr_append_of_ge h ext fr a hlow ha] at hb
              rcases List.mem_cons.mp hb with hb1 | hb1
              · omega
              · rcases List.mem_append.mp hb1 with hb2 | hb2
                · cases hlk : Heap.lookupAddr ext a with
                  | none =>
                      rw [hlk] at hb2
                      exact absurd hb2 (List.not_mem_nil b)
                  | some o =>
                      rw [hlk] at hb2
                      obtain ⟨p, hpmem, hpa, hpo⟩ := lookupAddr_mem hlk
                      have hobj : objAtLeast o fr = true := by
                        rw [← hpo]
                        exact (hext p hpmem).2
                      cases o with
                      | dict kvs =>
                          dsimp only at hb2
                          have hobj' : kvs.all (fun kv => valAtLeast kv.2 fr) = true := hobj
                          have hch : ∀ x ∈ kvs.map Prod.snd, valAtLeast x fr = true := by
                            intro x hx
                            rcases List.mem_map.mp hx with ⟨kv, hkv, hkvx⟩
                            have := List.all_eq_true.mp hobj' kv hkv
                            rw [← hkvx]
                            exact this
                          exact ih (kvs.map Prod.snd) hch b hb2
                      | list xs =>
                          dsimp only at hb2
                          have hobj' : xs.all (fun v => valAtLeast v fr) = true := hobj
                          have hch : ∀ x ∈ xs, valAtLeast x fr = true := by
                            intro x hx
                            exact List.all_eq_true.mp hobj' x hx
                          exact ih xs hch b hb2
                · exact ih rest hrest b hb2

/-- **C4 counterexample**: `build()` is a shallow copy, so an address
nested inside the structure returned by `build()` (here address 1, the
inner condition dict) is shared with the builder: mutating it changes the
deep content of the internal stages, i.e. the result of every subsequent
`build()`.  The claim's "mutating any part of the list returned by
build() never changes the result of any subsequent build()" is false. -/
theorem c4_deep_copy_cex :
    (1 ∈ reachAddrs 9 c4built.1 [c4built.2.2]) ∧
    snapshotVals 9 (Heap.update c4built.1 1 (HObj.dict [("a", HVal.int 99)]))
        c4stages ≠
      snapshotVals 9 c4built.1 c4stages := by
  constructor
  · decide
  · intro hEq
    exact absurd (congrArg probeInt hEq) (by decide)

/-- **C4 amended**: `get_stage_at` returns a deep copy living entirely at
fresh addresses, and mutating any fresh address (hence any part of that
copy) never changes the deep content of the internal stages; mutating the
fresh top-level list object returned by `build()` also never changes it.
Only the nested sub-structures shared by `build()`'s shallow copy (the
counterexample) are exempt. -/
theorem c4_amended_copy_independence (fuel : Nat) (h : Heap) (fresh : Nat)
    (stages : List HVal)
    (hcl : HeapClosed h fresh = true)
    (hst : ∀ v ∈ stages, valBelow v fresh = true) :
    (∀ index h2 fresh2 v2,
      HeapModel.get_stage_at fuel h fresh stages index = some (h2, fresh2, v2) →
      (∀ b ∈ reachAddrs fuel h2 [v2], fresh ≤ b) ∧
      ∀ a o, fresh ≤ a →
        snapshotVals fuel (Heap.update h2 a o) stages =
          snapshotVals fuel h stages) ∧
    (∀ o, snapshotVals fuel
        (Heap.update (HeapModel.build h fresh stages).1 fresh o) stages =
      snapshotVals fuel h stages) := by
  have hlow : ∀ p ∈ h, p.1 < fresh := by
    intro p hp
    unfold HeapClosed at hcl
    have := List.all_eq_true.mp hcl p hp
    simp only [Bool.and_eq_true, decide_eq_true_eq] at this
    exact this.1
  constructor
  · intro index h2 fresh2 v2 hcopy
    unfold HeapModel.get_stage_at at hcopy
    split at hcopy
    · unfold deepcopy at hcopy
      split at hcopy
      · rename_i x1 v hidx x2 h1 f1 v1 heq
        cases hcopy
        obtain ⟨hle, hatl, ext, hexteq, hextp⟩ :=
          deepcopyVals_extends fuel h fresh [v] h2 fresh2 [v2] heq
        subst hexteq
        constructor
        · intro b hb
          exact reachAddrs_high fresh h ext hlow hextp fuel [v2] hatl b hb
        · intro a o ha
          rw [update_append_of_ge h ext fresh a o hlow ha]
          exact snapshotVals_append_high fresh h (Heap.update ext a o) hcl
            (update_addrs_ge ext fresh a o (fun p hp => (hextp p hp).1) ha)
            fuel stages hst
      · exact nomatch hcopy
    · exact nomatch hcopy
  · intro o
    have hb : (HeapModel.build h fresh stages).1 =
        h ++ [(fresh, HObj.list stages)] := rfl
    rw [hb, update_append_of_ge h [(fresh, HObj.list stages)] fresh fresh o
      hlow (Nat.le_refl fresh)]
    refine snapshotVals_append_high fresh h _ hcl ?_ fuel stages hst
    intro p hp
    simp only [Heap.update, List.map_cons, List.map_nil, beq_self_eq_true,
      if_true, List.mem_singleton] at hp
    rw [hp]

/-- Witness for C4 amended: on a concrete one-stage heap, mutating the
deep copy produced by `get_stage_at(0)` (allocated at the fresh address
1) leaves the snapshot of the internal stages unchanged. -/
theorem c4_amended_witness :
    snapshotVals 4
        (Heap.update
          [(0, HObj.dict [("$match", HVal.int 1)]),
           (1, HObj.dict [("$match", HVal.int 1)])] 1 (HObj.dict []))
        [HVal.ref 0] =
      snapshotVals 4 [(0, HObj.dict [("$match", HVal.int 1)])] [HVal.ref 0] :=
  ((c4_amended_copy_independence 4 [(0, HObj.dict [("$match", HVal.int 1)])] 1
      [HVal.ref 0] (by decide) (by decide)).1 0
    [(0, HObj.dict [("$match", HVal.int 1)]),
     (1, HObj.dict [("$match", HVal.int 1)])] 2 (HVal.ref 1)
    (by decide)).2 1 (HObj.dict []) (by decide)

end MongoPipebuilder
